import Mathlib

/-!
# Verification of the food_helper backend core

Shallow embedding of the short-link codec, the shopping-list aggregator,
the membership toggles (favorite / shopping cart), the recipe write
validation and the subscription constraint, translated from the Django
sources under `backend/` and `foodgram_backend/`.

Byte strings are modelled as `List Nat` (one entry per byte).  The model
of `int()` covers ASCII payloads; the base64-decoded payloads relevant to
the claims are ASCII.
-/

namespace FoodHelper

/-! ## Short-link codec

`Recipe._get_short_link` (recipes/models.py) renders the id with `str`
and applies `base64.urlsafe_b64encode`; `RecipeShortLinkView.get`
(api/views.py) applies `base64.urlsafe_b64decode` and `int`, catching
`ValueError` (which subsumes `binascii.Error` and `UnicodeDecodeError`).
-/

/-- Standard base64 alphabet: 6-bit value to ASCII byte. -/
def b64char (v : Nat) : Nat :=
  if v < 26 then 65 + v
  else if v < 52 then 97 + (v - 26)
  else if v < 62 then 48 + (v - 52)
  else if v = 62 then 43
  else 47

/-- Inverse alphabet lookup (`binascii` table `table_a2b_base64`):
ASCII byte to 6-bit value, `none` for bytes outside the alphabet. -/
def b64val (c : Nat) : Option Nat :=
  if 65 ≤ c ∧ c ≤ 90 then some (c - 65)
  else if 97 ≤ c ∧ c ≤ 122 then some (c - 97 + 26)
  else if 48 ≤ c ∧ c ≤ 57 then some (c - 48 + 52)
  else if c = 43 then some 62
  else if c = 47 then some 63
  else none

/-- ASCII code of the base64 padding character. -/
def padByte : Nat := 61

/-- `binascii.b2a_base64` body: encode 3-byte blocks into 4 alphabet
characters, padding the final partial block with `=`. -/
def b64encodeBody : List Nat → List Nat
  | [] => []
  | [a] => [b64char (a / 4), b64char (a % 4 * 16), padByte, padByte]
  | [a, b] => [b64char (a / 4), b64char (a % 4 * 16 + b / 16),
      b64char (b % 16 * 4), padByte]
  | a :: b :: c :: rest =>
    b64char (a / 4) :: b64char (a % 4 * 16 + b / 16) ::
      b64char (b % 16 * 4 + c / 64) :: b64char (c % 64) :: b64encodeBody rest

/-- `urlsafe_b64encode` output translation: `+` to `-`, `/` to `_`. -/
def encTranslate (c : Nat) : Nat :=
  if c = 43 then 45 else if c = 47 then 95 else c

/-- `base64.urlsafe_b64encode` on a byte string. -/
def urlsafe_b64encode (bs : List Nat) : List Nat :=
  (b64encodeBody bs).map encTranslate

/-- `urlsafe_b64decode` input translation: `-` to `+`, `_` to `/`. -/
def decTranslate (c : Nat) : Nat :=
  if c = 45 then 43 else if c = 95 then 47 else c

/-- State machine of CPython `binascii.a2b_base64` in non-strict mode:
bytes outside the alphabet are discarded; a padding character with at
least two data characters in the current quad that completes the quad
ends the decode; leftover data characters at the end raise
`binascii.Error` (modelled as `none`). -/
def a2bGo : List Nat → Nat → Nat → Nat → List Nat → Option (List Nat)
  | [], quadPos, _, _, acc => if quadPos = 0 then some acc.reverse else none
  | c :: rest, quadPos, leftchar, pads, acc =>
    if c = padByte then
      if 2 ≤ quadPos then
        if 4 ≤ quadPos + (pads + 1) then some acc.reverse
        else a2bGo rest quadPos leftchar (pads + 1) acc
      else a2bGo rest quadPos leftchar pads acc
    else
      match b64val c with
      | none => a2bGo rest quadPos leftchar pads acc
      | some v =>
        if quadPos = 0 then a2bGo rest 1 v 0 acc
        else if quadPos = 1 then
          a2bGo rest 2 (v % 16) 0 ((leftchar * 4 + v / 16) :: acc)
        else if quadPos = 2 then
          a2bGo rest 3 (v % 4) 0 ((leftchar * 16 + v / 4) :: acc)
        else a2bGo rest 0 0 0 ((leftchar * 64 + v) :: acc)

/-- `binascii.a2b_base64` (non-strict), `none` models `binascii.Error`. -/
def a2b_base64 (s : List Nat) : Option (List Nat) :=
  a2bGo s 0 0 0 []

/-- `base64.urlsafe_b64decode`: translate the URL-safe alphabet back,
then run the base64 decoder. -/
def urlsafe_b64decode (s : List Nat) : Option (List Nat) :=
  a2b_base64 (s.map decTranslate)

/-- Little-endian ASCII digit bytes, fuelled so that the definition is
structural and computable by the kernel; `fuel ≥ n` suffices. -/
def digitsRevGo : Nat → Nat → List Nat
  | _, 0 => []
  | n, fuel + 1 => if n = 0 then [] else (n % 10 + 48) :: digitsRevGo (n / 10) fuel

/-- Little-endian ASCII digit bytes of `n` (empty for 0). -/
def digitsRev (n : Nat) : List Nat := digitsRevGo n n

/-- Python `str` on a non-negative integer, as ASCII bytes. -/
def str_of_nat (n : Nat) : List Nat :=
  if n = 0 then [48] else (digitsRev n).reverse

/-- `Recipe._get_short_link`: `base64.urlsafe_b64encode(str(recipe_id).encode())`. -/
def get_short_link (recipe_id : Nat) : List Nat :=
  urlsafe_b64encode (str_of_nat recipe_id)

/-- Whitespace bytes skipped by Python `int()` (ASCII range). -/
def isAsciiSpace (c : Nat) : Bool :=
  decide (c = 32 ∨ (9 ≤ c ∧ c ≤ 13) ∨ (28 ≤ c ∧ c ≤ 31))

/-- ASCII decimal digit test. -/
def isDigit (c : Nat) : Bool :=
  decide (48 ≤ c ∧ c ≤ 57)

/-- Digit run of Python `int()` after the first digit: underscores are
accepted only between two digits (PEP 515). -/
def parseDigitsGo : List Nat → Nat → Option Nat
  | [], acc => some acc
  | c :: rest, acc =>
    if isDigit c then parseDigitsGo rest (acc * 10 + (c - 48))
    else if c = 95 then
      match rest with
      | [] => none
      | d :: rest2 =>
        if isDigit d then parseDigitsGo rest2 (acc * 10 + (d - 48)) else none
    else none

/-- Digit run of Python `int()`: at least one digit, which must come first. -/
def parseDigits : List Nat → Option Nat
  | [] => none
  | c :: rest => if isDigit c then parseDigitsGo rest (c - 48) else none

/-- Python `int()` on an ASCII byte payload: strip surrounding
whitespace, accept one optional sign, then a digit run.  `none` models
`ValueError`.  (Non-ASCII Unicode digits accepted by CPython are not
modelled; the payloads deciding the claims are ASCII.) -/
def pyIntParse (s : List Nat) : Option Int :=
  let s1 := s.dropWhile isAsciiSpace
  let s2 := (s1.reverse.dropWhile isAsciiSpace).reverse
  match s2 with
  | [] => none
  | c :: rest =>
    if c = 43 then (parseDigits rest).map Int.ofNat
    else if c = 45 then (parseDigits rest).map (fun n => -(Int.ofNat n))
    else (parseDigits (c :: rest)).map Int.ofNat

/-- The two decode statements of `RecipeShortLinkView.get`:
`base64.urlsafe_b64decode` then `int(... .decode())`.  `none` models the
`ValueError` caught by the surrounding `try`. -/
def decodeShortLink (token : List Nat) : Option Int :=
  (urlsafe_b64decode token).bind pyIntParse

/-- Outcome of `RecipeShortLinkView.get`: a redirect to the recipe page,
the 400 body `{error: Неверная короткая ссылка.}`, or the framework 404
raised by `get_object_or_404`. -/
inductive ShortLinkResult
  | redirect (id : Int)
  | badRequest
  | notFound404
deriving DecidableEq, Repr

/-- `RecipeShortLinkView.get`, parameterised by the persisted set of
recipe ids. -/
def recipeShortLinkGet (token : List Nat) (recipeExists : Int → Bool) :
    ShortLinkResult :=
  match decodeShortLink token with
  | none => .badRequest
  | some i => if recipeExists i then .redirect i else .notFound404

/-! ## Shopping-list aggregator

`RecipeViewSet.download_shopping_cart` (api/views.py) runs the ORM query
`IngredientInRecipe.objects.filter(recipe__in=cart recipes)
 .values(name, measurement_unit).annotate(total_amount=Sum(amount))
 .order_by(ingredient__name)` and renders it with
`generate_shopping_list`.  The SQL `GROUP BY` yields one row per
distinct (name, unit) key with the summed amount; `ORDER BY` sorts by
name only, so SQL does not fix the relative order of rows with equal
names — the model realises that order as first-seen (table) order, and
the name comparison as codepoint-lexicographic order. -/

/-- One `IngredientInRecipe` row joined with its `Ingredient`:
(recipe id, ingredient name, measurement unit, amount). -/
structure IngredientInRecipe where
  recipe : Nat
  name : String
  unit : String
  amount : Nat
deriving DecidableEq, Repr

/-- The `values(ingredient__name, ingredient__measurement_unit)` key. -/
def rowKey (r : IngredientInRecipe) : String × String := (r.name, r.unit)

/-- Distinct elements in order of first occurrence. -/
def dedupFirst {α : Type} [DecidableEq α] : List α → List α
  | [] => []
  | x :: xs => x :: (dedupFirst xs).filter (fun y => y ≠ x)

/-- `Sum(amount)` over the rows of one (name, unit) group. -/
def sumAmounts (rows : List IngredientInRecipe) (k : String × String) : Nat :=
  ((rows.filter (fun r => rowKey r = k)).map (fun r => r.amount)).sum

/-- SQL `GROUP BY (name, unit)` with `Sum(amount)`: one entry per
distinct key (first-seen order) carrying the group total. -/
def groupRows (rows : List IngredientInRecipe) :
    List ((String × String) × Nat) :=
  (dedupFirst (rows.map rowKey)).map (fun k => (k, sumAmounts rows k))

/-- Strict codepoint-lexicographic order on character lists; models the
`ORDER BY` collation on names. -/
def charListLt : List Char → List Char → Bool
  | _, [] => false
  | [], _ :: _ => true
  | a :: as, b :: bs =>
    if a.toNat < b.toNat then true
    else if b.toNat < a.toNat then false
    else charListLt as bs

/-- Strict name comparison used by the `ORDER BY ingredient__name`. -/
def nameLt (s t : String) : Bool := charListLt s.data t.data

/-- Stable insertion by ingredient name: the inserted element lands
before elements of equal name that were later in the original list. -/
def insertByName (x : (String × String) × Nat) :
    List ((String × String) × Nat) → List ((String × String) × Nat)
  | [] => [x]
  | y :: ys =>
    if nameLt y.1.1 x.1.1 then y :: insertByName x ys else x :: y :: ys

/-- `ORDER BY ingredient__name`: stable sort by name. -/
def sortByName (l : List ((String × String) × Nat)) :
    List ((String × String) × Nat) :=
  l.foldr insertByName []

/-- The whole annotated queryset of `download_shopping_cart`. -/
def cartIngredientsQuery (rows : List IngredientInRecipe) :
    List ((String × String) × Nat) :=
  sortByName (groupRows rows)

/-- One line of `generate_shopping_list`:
the f-string `{name} ({unit}) — {total}`. -/
def renderLine (p : (String × String) × Nat) : String :=
  p.1.1 ++ " (" ++ p.1.2 ++ ") — " ++ toString p.2

/-- `RecipeViewSet.generate_shopping_list`: render every annotated row
and join with a newline. -/
def generate_shopping_list (ingredients : List ((String × String) × Nat)) :
    String :=
  String.intercalate "\n" (ingredients.map renderLine)

/-- Outcome of `download_shopping_cart`: a `text/plain` attachment, or
the `ValidationError` (HTTP 400) raised on an empty cart. -/
inductive DownloadResult
  | file (content : String) (filename : String)
  | emptyCartError (msg : String)
deriving DecidableEq, Repr

/-- `RecipeViewSet.download_shopping_cart`: `cart` is the user's list of
cart recipe ids, `table` the persisted `IngredientInRecipe` rows. -/
def download_shopping_cart (username : String) (cart : List Nat)
    (table : List IngredientInRecipe) : DownloadResult :=
  if cart = [] then .emptyCartError "Ваш список покупок пуст."
  else .file
    (generate_shopping_list (cartIngredientsQuery
      (table.filter (fun r => r.recipe ∈ cart))))
    (username ++ "_shopping_list.txt")

/-! ## Membership toggles (favorite / shopping cart)

`FavoriteCreateSerializer` / `ShoppingCartCreateSerializer`
(api/serializers.py) reject an already-present (user, recipe) pair with
`ValidationError` before creating the row; `RecipeViewSet.delete_from_list`
(api/views.py) resolves the recipe with `get_object_or_404`, deletes the
matching rows and answers 400 `Рецепт уже удален!` when nothing was
deleted. -/

/-- The two membership namespaces sharing the same logic. -/
inductive MembKind
  | favorite
  | shoppingCart
deriving DecidableEq, Repr

/-- Persisted membership state: the recipe table and the two
(user, recipe) membership tables. -/
structure MembState where
  recipes : List Nat
  favorite : List (Nat × Nat)
  cart : List (Nat × Nat)
deriving DecidableEq, Repr

/-- The membership table of a namespace. -/
def MembState.table (st : MembState) : MembKind → List (Nat × Nat)
  | .favorite => st.favorite
  | .shoppingCart => st.cart

/-- Replace the membership table of a namespace. -/
def MembState.setTable (st : MembState) :
    MembKind → List (Nat × Nat) → MembState
  | .favorite, t => { st with favorite := t }
  | .shoppingCart, t => { st with cart := t }

/-- Outcome of the POST (add) path: 201, duplicate-pair 400, or the 400
raised when the recipe id does not resolve. -/
inductive AddResult
  | created
  | conflict
  | invalidRecipe
deriving DecidableEq, Repr

/-- `favorite` / `shopping_cart` POST: serializer field resolution, the
`validate` existence check, then `save`. -/
def add_to_list (k : MembKind) (st : MembState) (user recipe : Nat) :
    AddResult × MembState :=
  if recipe ∈ st.recipes then
    if (user, recipe) ∈ st.table k then (.conflict, st)
    else (.created, st.setTable k (st.table k ++ [(user, recipe)]))
  else (.invalidRecipe, st)

/-- Outcome of the DELETE (remove) path: 204, the 400 body
`Рецепт уже удален!` when the pair is absent, or the framework 404 when
the recipe id does not resolve. -/
inductive RemoveResult
  | removed
  | notFound
  | recipeMissing404
deriving DecidableEq, Repr

/-- `RecipeViewSet.delete_from_list`: `get_object_or_404(Recipe, id)`,
then delete the matching rows, answering 400 when none matched. -/
def delete_from_list (k : MembKind) (st : MembState) (user recipe : Nat) :
    RemoveResult × MembState :=
  if recipe ∈ st.recipes then
    if (user, recipe) ∈ st.table k then
      (.removed,
        st.setTable k ((st.table k).filter (fun p => p ≠ (user, recipe))))
    else (.notFound, st)
  else (.recipeMissing404, st)

/-! ## Short-link caching discipline

`Recipe.save` (recipes/models.py) fills `short_link` from
`_get_short_link(self.id)` when the field is falsy; the
`RecipeViewSet.get_link` variant computes and persists the token on
first request and reads the stored value afterwards. -/

/-- The persisted `Recipe` row restricted to the fields the codec uses:
`short_link` is a nullable character field. -/
structure RecipeRow where
  id : Nat
  short_link : Option (List Nat)
deriving DecidableEq, Repr

/-- Python truthiness of the `short_link` field: `None` and the empty
string are falsy. -/
def linkFalsy : Option (List Nat) → Bool
  | none => true
  | some s => s.isEmpty

/-- `Recipe.save`: generate and persist the token when the field is
falsy, leave it untouched otherwise. -/
def recipeSave (r : RecipeRow) : RecipeRow :=
  if linkFalsy r.short_link then
    { r with short_link := some (get_short_link r.id) }
  else r

/-- `RecipeViewSet.get_link`: return the stored token when truthy,
otherwise compute it, store it and save. -/
def recipeGetLink (r : RecipeRow) : List Nat × RecipeRow :=
  if linkFalsy r.short_link then
    (get_short_link r.id, { r with short_link := some (get_short_link r.id) })
  else (r.short_link.getD [], r)

/-- The operations that touch the `short_link` field. -/
inductive RecipeOp
  | save
  | getLink
deriving DecidableEq, Repr

/-- Apply one operation to the persisted row. -/
def applyRecipeOp : RecipeOp → RecipeRow → RecipeRow
  | .save, r => recipeSave r
  | .getLink, r => (recipeGetLink r).2

/-- Apply a sequence of operations. -/
def runRecipeOps (ops : List RecipeOp) (r : RecipeRow) : RecipeRow :=
  ops.foldl (fun s op => applyRecipeOp op s) r

/-- A freshly inserted recipe row: `short_link` starts out null. -/
def newRecipe (id : Nat) : RecipeRow := { id := id, short_link := none }

/-! ## Recipe write validation

`WriteRecipeSerializer.validate` (api/serializers.py) rejects empty or
duplicated tags and ingredients; DRF runs it inside `is_valid` before
`create` / `update` touch the database. -/

/-- A recipe write payload: tag ids and (ingredient id, amount) pairs. -/
structure WritePayload where
  tags : List Nat
  ingredients : List (Nat × Nat)
deriving DecidableEq, Repr

/-- The list `[ingredient[id] for ingredient in ingredients]`. -/
def ingredientIds (p : WritePayload) : List Nat :=
  p.ingredients.map (fun i => i.1)

/-- `WriteRecipeSerializer.validate`: `len(set(x))` is modelled by the
length of `List.dedup`. -/
def wrValidate (p : WritePayload) : Option String :=
  if p.tags = [] then some "Поле тегов не может быть пустым."
  else if p.tags.length ≠ p.tags.dedup.length then
    some "Теги не должны повторяться."
  else if p.ingredients = [] then
    some "Поле ингредиентов не может быть пустым."
  else if p.tags.length ≠ p.tags.dedup.length ∨
      (ingredientIds p).length ≠ (ingredientIds p).dedup.length then
    some "Ингредиенты не должны повторяться."
  else none

/-- Persisted recipe data touched by a write: recipe ids, (recipe, tag)
pairs and (recipe, ingredient, amount) lines. -/
structure RecipeStore where
  recipes : List Nat
  recipeTags : List (Nat × Nat)
  ingredientLines : List (Nat × Nat × Nat)
deriving DecidableEq, Repr

/-- Recipe creation pipeline: `is_valid(raise_exception=True)` then
`WriteRecipeSerializer.create` (inside `transaction.atomic`). -/
def createRecipe (st : RecipeStore) (p : WritePayload) (newId : Nat) :
    Option String × RecipeStore :=
  match wrValidate p with
  | some m => (some m, st)
  | none =>
    (none,
      { recipes := st.recipes ++ [newId],
        recipeTags := st.recipeTags ++ p.tags.map (fun t => (newId, t)),
        ingredientLines := st.ingredientLines ++
          p.ingredients.map (fun i => (newId, i.1, i.2)) })

/-- Recipe update pipeline: validation, then `tags.set`,
`ingredients.clear()` and the bulk re-create. -/
def updateRecipe (st : RecipeStore) (recipeId : Nat) (p : WritePayload) :
    Option String × RecipeStore :=
  match wrValidate p with
  | some m => (some m, st)
  | none =>
    (none,
      { recipes := st.recipes,
        recipeTags := st.recipeTags.filter (fun t => t.1 ≠ recipeId) ++
          p.tags.map (fun t => (recipeId, t)),
        ingredientLines :=
          st.ingredientLines.filter (fun l => l.1 ≠ recipeId) ++
            p.ingredients.map (fun i => (recipeId, i.1, i.2)) })

/-! ## Subscriptions

`SubscriptionCreateSerializer.validate` (api/serializers.py) rejects
self-subscription and duplicates; `Subscriptions.Meta` (users/models.py)
additionally carries the matching uniqueness and check constraints. -/

/-- `SubscriptionCreateSerializer.validate` on the subscription table. -/
def subValidate (subs : List (Nat × Nat)) (follower following : Nat) :
    Option String :=
  if follower = following then some "Подписаться на самого себя невозможно."
  else if (follower, following) ∈ subs then
    some "Подписаться на пользователя можно только один раз."
  else none

/-- `CustomUserViewSet.subscribe`: validation then `save`. -/
def subscribeUser (subs : List (Nat × Nat)) (follower following : Nat) :
    Option String × List (Nat × Nat) :=
  match subValidate subs follower following with
  | some m => (some m, subs)
  | none => (none, subs ++ [(follower, following)])

/-- `CustomUserViewSet.delete_subscribe`: delete the matching rows. -/
def delete_subscribe (subs : List (Nat × Nat)) (follower following : Nat) :
    List (Nat × Nat) :=
  subs.filter (fun p => p ≠ (follower, following))

/-- Subscription tables reachable from the empty table through the API
operations (subscribe, unsubscribe, user-deletion cascade). -/
inductive SubsReachable : List (Nat × Nat) → Prop
  | init : SubsReachable []
  | subscribeStep (s : List (Nat × Nat)) (f g : Nat) :
      SubsReachable s → SubsReachable (subscribeUser s f g).2
  | unsubscribeStep (s : List (Nat × Nat)) (f g : Nat) :
      SubsReachable s → SubsReachable (delete_subscribe s f g)
  | cascadeStep (s : List (Nat × Nat)) (u : Nat) :
      SubsReachable s → SubsReachable (s.filter (fun p => p.1 ≠ u ∧ p.2 ≠ u))

/-! ## Base64 round-trip lemmas -/

theorem b64val_enc :
    ∀ v < 64, b64val (decTranslate (encTranslate (b64char v))) = some v := by
  decide

theorem enc_ne_pad :
    ∀ v < 64, decTranslate (encTranslate (b64char v)) ≠ padByte := by
  decide

theorem dt_et_pad : decTranslate (encTranslate padByte) = padByte := by decide

theorem a2bGo_block3 (a b c : Nat) (ha : a < 256) (hb : b < 256)
    (hc : c < 256) (l acc : List Nat) :
    a2bGo (decTranslate (encTranslate (b64char (a / 4))) ::
        decTranslate (encTranslate (b64char (a % 4 * 16 + b / 16))) ::
        decTranslate (encTranslate (b64char (b % 16 * 4 + c / 64))) ::
        decTranslate (encTranslate (b64char (c % 64))) :: l) 0 0 0 acc =
      a2bGo l 0 0 0 (c :: b :: a :: acc) := by
  have h1 : a / 4 < 64 := by omega
  have h2 : a % 4 * 16 + b / 16 < 64 := by omega
  have h3 : b % 16 * 4 + c / 64 < 64 := by omega
  have h4 : c % 64 < 64 := by omega
  have e1 : a / 4 * 4 + (a % 4 * 16 + b / 16) / 16 = a := by omega
  have e2 : (a % 4 * 16 + b / 16) % 16 * 16 + (b % 16 * 4 + c / 64) / 4 = b := by
    omega
  have e3 : (b % 16 * 4 + c / 64) % 4 * 64 + c % 64 = c := by omega
  simp [a2bGo, enc_ne_pad _ h1, enc_ne_pad _ h2, enc_ne_pad _ h3,
    enc_ne_pad _ h4, b64val_enc _ h1, b64val_enc _ h2, b64val_enc _ h3,
    b64val_enc _ h4, e1, e2, e3]

theorem a2bGo_block1 (a : Nat) (ha : a < 256) (acc : List Nat) :
    a2bGo (decTranslate (encTranslate (b64char (a / 4))) ::
        decTranslate (encTranslate (b64char (a % 4 * 16))) ::
        decTranslate (encTranslate padByte) ::
        decTranslate (encTranslate padByte) :: []) 0 0 0 acc =
      some (acc.reverse ++ [a]) := by
  have h1 : a / 4 < 64 := by omega
  have h2 : a % 4 * 16 < 64 := by omega
  have e1 : a / 4 * 4 + a % 4 * 16 / 16 = a := by omega
  simp [a2bGo, dt_et_pad, enc_ne_pad _ h1, enc_ne_pad _ h2,
    b64val_enc _ h1, b64val_enc _ h2, e1]
  omega

theorem a2bGo_block2 (a b : Nat) (ha : a < 256) (hb : b < 256)
    (acc : List Nat) :
    a2bGo (decTranslate (encTranslate (b64char (a / 4))) ::
        decTranslate (encTranslate (b64char (a % 4 * 16 + b / 16))) ::
        decTranslate (encTranslate (b64char (b % 16 * 4))) ::
        decTranslate (encTranslate padByte) :: []) 0 0 0 acc =
      some (acc.reverse ++ [a, b]) := by
  have h1 : a / 4 < 64 := by omega
  have h2 : a % 4 * 16 + b / 16 < 64 := by omega
  have h3 : b % 16 * 4 < 64 := by omega
  have e1 : a / 4 * 4 + (a % 4 * 16 + b / 16) / 16 = a := by omega
  have e2 : (a % 4 * 16 + b / 16) % 16 * 16 + b % 16 * 4 / 4 = b := by omega
  simp [a2bGo, dt_et_pad, enc_ne_pad _ h1, enc_ne_pad _ h2, enc_ne_pad _ h3,
    b64val_enc _ h1, b64val_enc _ h2, b64val_enc _ h3, e1, e2]
  omega

theorem a2bGo_encodeBody :
    ∀ (bs : List Nat), (∀ x ∈ bs, x < 256) → ∀ acc : List Nat,
      a2bGo (((b64encodeBody bs).map encTranslate).map decTranslate) 0 0 0 acc
        = some (acc.reverse ++ bs)
  | [], _, acc => by simp [b64encodeBody, a2bGo]
  | [a], h, acc => by
    have ha : a < 256 := h a (by simp)
    simpa [b64encodeBody] using a2bGo_block1 a ha acc
  | [a, b], h, acc => by
    have ha : a < 256 := h a (by simp)
    have hb : b < 256 := h b (by simp)
    simpa [b64encodeBody] using a2bGo_block2 a b ha hb acc
  | a :: b :: c :: rest, h, acc => by
    have ha : a < 256 := h a (by simp)
    have hb : b < 256 := h b (by simp)
    have hc : c < 256 := h c (by simp)
    have hrest : ∀ x ∈ rest, x < 256 := fun x hx => h x (by simp [hx])
    have ih := a2bGo_encodeBody rest hrest (c :: b :: a :: acc)
    simp only [b64encodeBody, List.map_cons]
    rw [a2bGo_block3 a b c ha hb hc _ acc, ih]
    simp

/-- Round trip of the byte-level base64 codec on byte strings. -/
theorem urlsafe_b64_roundtrip (bs : List Nat) (h : ∀ x ∈ bs, x < 256) :
    urlsafe_b64decode (urlsafe_b64encode bs) = some bs := by
  simpa [urlsafe_b64decode, urlsafe_b64encode, a2b_base64]
    using a2bGo_encodeBody bs h []

/-! ## Decimal rendering and `int()` parsing lemmas -/

theorem digitsRevGo_digit :
    ∀ (fuel n c : Nat), c ∈ digitsRevGo n fuel → 48 ≤ c ∧ c ≤ 57
  | 0, n, c, h => by simp [digitsRevGo] at h
  | fuel + 1, n, c, h => by
    by_cases hn : n = 0
    · simp [digitsRevGo, hn] at h
    · simp only [digitsRevGo, if_neg hn, List.mem_cons] at h
      rcases h with h | h
      · omega
      · exact digitsRevGo_digit fuel (n / 10) c h

theorem foldl_digitsRevGo :
    ∀ (fuel n acc : Nat), n ≤ fuel →
      (digitsRevGo n fuel).reverse.foldl (fun a c => a * 10 + (c - 48)) acc
        = acc * 10 ^ (digitsRevGo n fuel).length + n
  | 0, n, acc, h => by
    have : n = 0 := Nat.le_zero.mp h
    subst this
    simp [digitsRevGo]
  | fuel + 1, n, acc, h => by
    by_cases hn : n = 0
    · subst hn; simp [digitsRevGo]
    · have hle : n / 10 ≤ fuel := by omega
      simp only [digitsRevGo, if_neg hn, List.reverse_cons, List.foldl_append,
        List.length_cons, List.foldl_cons, List.foldl_nil]
      rw [foldl_digitsRevGo fuel (n / 10) acc hle]
      have h48 : n % 10 + 48 - 48 = n % 10 := by omega
      rw [h48, pow_succ]
      have hdm : n / 10 * 10 + n % 10 = n := by omega
      calc (acc * 10 ^ (digitsRevGo (n / 10) fuel).length + n / 10) * 10 + n % 10
          = acc * (10 ^ (digitsRevGo (n / 10) fuel).length * 10) +
              (n / 10 * 10 + n % 10) := by ring
        _ = acc * (10 ^ (digitsRevGo (n / 10) fuel).length * 10) + n := by
              rw [hdm]

theorem parseDigitsGo_all :
    ∀ (l : List Nat) (acc : Nat), (∀ c ∈ l, isDigit c) →
      parseDigitsGo l acc = some (l.foldl (fun a c => a * 10 + (c - 48)) acc)
  | [], acc, _ => rfl
  | c :: rest, acc, h => by
    have hc : isDigit c := h c (by simp)
    have hstep : parseDigitsGo (c :: rest) acc =
        parseDigitsGo rest (acc * 10 + (c - 48)) := by
      cases rest with
      | nil => simp [parseDigitsGo, hc]
      | cons d rest2 => simp [parseDigitsGo, hc]
    rw [hstep, parseDigitsGo_all rest _ (fun x hx => h x (by simp [hx]))]
    simp

theorem digit_not_space {c : Nat} (h : isDigit c) : isAsciiSpace c = false := by
  simp only [isDigit, decide_eq_true_eq] at h
  simp only [isAsciiSpace, decide_eq_false_iff_not]
  omega

theorem dropWhile_eq_self_of_digits (l : List Nat)
    (h : ∀ c ∈ l, isDigit c) : l.dropWhile isAsciiSpace = l := by
  cases l with
  | nil => rfl
  | cons c rest =>
    rw [List.dropWhile_cons]
    simp [digit_not_space (h c (by simp))]

theorem pyIntParse_digits (l : List Nat) (hne : l ≠ [])
    (hd : ∀ c ∈ l, isDigit c) :
    pyIntParse l =
      some ((l.foldl (fun a c => a * 10 + (c - 48)) 0 : Nat) : Int) := by
  have hrev : ∀ c ∈ l.reverse, isDigit c := by
    intro c hc
    exact hd c (List.mem_reverse.mp hc)
  unfold pyIntParse
  simp only [dropWhile_eq_self_of_digits l hd,
    dropWhile_eq_self_of_digits l.reverse hrev, List.reverse_reverse]
  cases l with
  | nil => exact absurd rfl hne
  | cons c rest =>
    have hc : isDigit c := hd c (by simp)
    have hcb : 48 ≤ c ∧ c ≤ 57 := by
      simpa [isDigit, decide_eq_true_eq] using hc
    have h43 : ¬(c = 43) := by omega
    have h45 : ¬(c = 45) := by omega
    have hpd : parseDigits (c :: rest) = parseDigitsGo rest (c - 48) := by
      simp [parseDigits, hc]
    simp only [if_neg h43, if_neg h45, hpd,
      parseDigitsGo_all rest (c - 48) (fun x hx => hd x (by simp [hx]))]
    simp

theorem str_of_nat_digits (n : Nat) : ∀ c ∈ str_of_nat n, isDigit c := by
  intro c hc
  unfold str_of_nat at hc
  split at hc
  · simp at hc
    simp [hc, isDigit]
  · have := digitsRevGo_digit n n c (List.mem_reverse.mp hc)
    simp only [isDigit, decide_eq_true_eq]
    omega

theorem str_of_nat_ne_nil (n : Nat) : str_of_nat n ≠ [] := by
  unfold str_of_nat
  split
  · simp
  · rename_i hn
    cases n with
    | zero => exact absurd rfl hn
    | succ m =>
      simp [digitsRev, digitsRevGo]

theorem str_of_nat_lt256 (n : Nat) : ∀ c ∈ str_of_nat n, c < 256 := by
  intro c hc
  have := str_of_nat_digits n c hc
  simp only [isDigit, decide_eq_true_eq] at this
  omega

theorem foldl_str_of_nat (n : Nat) :
    (str_of_nat n).foldl (fun a c => a * 10 + (c - 48)) 0 = n := by
  unfold str_of_nat
  split
  · rename_i hn
    simp [hn]
  · unfold digitsRev
    rw [foldl_digitsRevGo n n 0 le_rfl]
    simp

/-- C1: for every positive integer recipe id, decoding the token
produced by encoding it returns exactly that id: `Recipe._get_short_link`
renders the id as its base-10 ASCII string and applies URL-safe base64,
and the decode path of `RecipeShortLinkView.get` (base64-decode, then
integer parse) recovers the id. -/
theorem decode_encode_roundtrip (n : Nat) (_hn : 1 ≤ n) :
    decodeShortLink (get_short_link n) = some ((n : Nat) : Int) := by
  unfold decodeShortLink get_short_link
  rw [urlsafe_b64_roundtrip (str_of_nat n) (str_of_nat_lt256 n)]
  rw [Option.some_bind,
    pyIntParse_digits (str_of_nat n) (str_of_nat_ne_nil n) (str_of_nat_digits n),
    foldl_str_of_nat n]

/-- Witness for C1 at the concrete id 42. -/
theorem decode_encode_roundtrip_witness :
    1 ≤ 42 ∧ decodeShortLink (get_short_link 42) = some ((42 : Nat) : Int) :=
  ⟨by decide, decode_encode_roundtrip 42 (by decide)⟩

/-- C2: whenever either decoding step of `RecipeShortLinkView.get` fails
(malformed base64 or a payload that does not parse as an integer), the
view answers the 400 error body — the `ValueError` family raised by
`urlsafe_b64decode` and `int` is caught by the `try` block and never
escapes as a server fault. -/
theorem decode_failure_handled (token : List Nat) (recipeExists : Int → Bool)
    (h : decodeShortLink token = none) :
    recipeShortLinkGet token recipeExists = ShortLinkResult.badRequest := by
  simp [recipeShortLinkGet, h]

/-- Witness for C2 on the malformed token `@@@`. -/
theorem decode_failure_handled_witness :
    decodeShortLink [64, 64, 64] = none ∧
      recipeShortLinkGet [64, 64, 64] (fun _ => true) =
        ShortLinkResult.badRequest :=
  ⟨by decide, decode_failure_handled [64, 64, 64] (fun _ => true) (by decide)⟩

/-- C10: decode is not injective on accepted tokens and is not a left
inverse of encode: the URL-safe base64 encodings of the byte strings
`5` (token `NQ==`) and `+5` (token `KzU=`) are distinct tokens that both
decode to recipe id 5, and re-encoding 5 does not return `KzU=`. -/
theorem decode_not_injective :
    urlsafe_b64encode [53] = [78, 81, 61, 61] ∧
    urlsafe_b64encode [43, 53] = [75, 122, 85, 61] ∧
    decodeShortLink [78, 81, 61, 61] = some 5 ∧
    decodeShortLink [75, 122, 85, 61] = some 5 ∧
    [78, 81, 61, 61] ≠ [75, 122, 85, 61] ∧
    get_short_link 5 = [78, 81, 61, 61] ∧
    get_short_link 5 ≠ [75, 122, 85, 61] := by
  decide

/-! ## Aggregator lemmas -/

theorem char_eq_of_toNat {a b : Char} (h : a.toNat = b.toNat) : a = b :=
  Char.ext (UInt32.ext h)

theorem charListLt_irrefl : ∀ l : List Char, charListLt l l = false
  | [] => rfl
  | a :: as => by simp [charListLt, charListLt_irrefl as]

theorem charListLt_trans :
    ∀ a b c : List Char, charListLt a b = true → charListLt b c = true →
      charListLt a c = true
  | _, _, [], _, h2 => by simp [charListLt] at h2
  | _, [], _ :: _, h1, _ => by simp [charListLt] at h1
  | [], _ :: _, _ :: _, _, _ => by simp [charListLt]
  | a :: as, b :: bs, c :: cs, h1, h2 => by
    simp only [charListLt] at h1 h2 ⊢
    rcases Nat.lt_trichotomy a.toNat b.toNat with hab | hab | hab
    · rcases Nat.lt_trichotomy b.toNat c.toNat with hbc | hbc | hbc
      · rw [if_pos (show a.toNat < c.toNat by omega)]
      · rw [if_pos (show a.toNat < c.toNat by omega)]
      · rw [if_neg (show ¬ b.toNat < c.toNat by omega),
            if_pos (show c.toNat < b.toNat by omega)] at h2
        exact absurd h2 (by simp)
    · rcases Nat.lt_trichotomy b.toNat c.toNat with hbc | hbc | hbc
      · rw [if_pos (show a.toNat < c.toNat by omega)]
      · rw [if_neg (show ¬ a.toNat < b.toNat by omega),
            if_neg (show ¬ b.toNat < a.toNat by omega)] at h1
        rw [if_neg (show ¬ b.toNat < c.toNat by omega),
            if_neg (show ¬ c.toNat < b.toNat by omega)] at h2
        rw [if_neg (show ¬ a.toNat < c.toNat by omega),
            if_neg (show ¬ c.toNat < a.toNat by omega)]
        exact charListLt_trans as bs cs h1 h2
      · rw [if_neg (show ¬ b.toNat < c.toNat by omega),
            if_pos (show c.toNat < b.toNat by omega)] at h2
        exact absurd h2 (by simp)
    · rw [if_neg (show ¬ a.toNat < b.toNat by omega),
          if_pos (show b.toNat < a.toNat by omega)] at h1
      exact absurd h1 (by simp)

theorem charListLt_asymm {a b : List Char} (h : charListLt a b = true) :
    charListLt b a = false := by
  by_contra hba
  rw [Bool.not_eq_false] at hba
  have h2 := charListLt_trans a b a h hba
  rw [charListLt_irrefl a] at h2
  exact absurd h2 (by simp)

theorem charListLt_eq_of_not :
    ∀ a b : List Char, charListLt a b = false → charListLt b a = false →
      a = b
  | [], [], _, _ => rfl
  | [], _ :: _, h1, _ => by simp [charListLt] at h1
  | _ :: _, [], _, h2 => by simp [charListLt] at h2
  | a :: as, b :: bs, h1, h2 => by
    simp only [charListLt] at h1 h2
    rcases Nat.lt_trichotomy a.toNat b.toNat with hab | hab | hab
    · rw [if_pos hab] at h1
      exact absurd h1 (by simp)
    · rw [if_neg (show ¬ a.toNat < b.toNat by omega),
          if_neg (show ¬ b.toNat < a.toNat by omega)] at h1
      rw [if_neg (show ¬ b.toNat < a.toNat by omega),
          if_neg (show ¬ a.toNat < b.toNat by omega)] at h2
      rw [char_eq_of_toNat hab, charListLt_eq_of_not as bs h1 h2]
    · rw [if_pos hab] at h2
      exact absurd h2 (by simp)

theorem nameLt_irrefl (s : String) : nameLt s s = false :=
  charListLt_irrefl s.data

theorem nameLt_asymm {s t : String} (h : nameLt s t = true) :
    nameLt t s = false :=
  charListLt_asymm h

theorem nameLe_trans {a b c : String} (h1 : nameLt b a = false)
    (h2 : nameLt c b = false) : nameLt c a = false := by
  simp only [nameLt] at h1 h2 ⊢
  by_contra hca
  rw [Bool.not_eq_false] at hca
  cases hbc : charListLt b.data c.data with
  | true =>
    have h3 := charListLt_trans b.data c.data a.data hbc hca
    rw [h1] at h3
    exact absurd h3 (by simp)
  | false =>
    have heq : b.data = c.data := charListLt_eq_of_not _ _ hbc h2
    rw [← heq] at hca
    rw [h1] at hca
    exact absurd hca (by simp)

theorem nameLt_or_eq_of_not {a b : String} (h : nameLt b a = false) :
    nameLt a b = true ∨ a = b := by
  cases hab : nameLt a b with
  | true => exact Or.inl rfl
  | false =>
    refine Or.inr ?_
    simp only [nameLt] at hab h
    exact congrArg String.mk (charListLt_eq_of_not _ _ hab h)

theorem insertByName_perm (x : (String × String) × Nat) :
    ∀ l, (insertByName x l).Perm (x :: l)
  | [] => List.Perm.refl _
  | y :: ys => by
    unfold insertByName
    split
    · exact ((insertByName_perm x ys).cons y).trans (List.Perm.swap x y ys)
    · exact List.Perm.refl _

theorem sortByName_perm : ∀ l, (sortByName l).Perm l
  | [] => List.Perm.refl _
  | x :: xs => by
    show (insertByName x (sortByName xs)).Perm (x :: xs)
    exact (insertByName_perm x (sortByName xs)).trans
      ((sortByName_perm xs).cons x)

theorem insertByName_sorted (x : (String × String) × Nat) :
    ∀ l, l.Pairwise (fun a b => nameLt b.1.1 a.1.1 = false) →
      (insertByName x l).Pairwise (fun a b => nameLt b.1.1 a.1.1 = false)
  | [], _ => by simp [insertByName]
  | y :: ys, h => by
    unfold insertByName
    rcases List.pairwise_cons.mp h with ⟨hy, hys⟩
    split
    · rename_i hlt
      refine List.pairwise_cons.mpr ⟨?_, insertByName_sorted x ys hys⟩
      intro z hz
      rcases List.mem_cons.mp ((insertByName_perm x ys).mem_iff.mp hz) with
        rfl | hz2
      · exact nameLt_asymm hlt
      · exact hy z hz2
    · rename_i hnlt
      rw [Bool.not_eq_true] at hnlt
      refine List.pairwise_cons.mpr ⟨?_, h⟩
      intro z hz
      rcases List.mem_cons.mp hz with rfl | hz2
      · exact hnlt
      · exact nameLe_trans hnlt (hy z hz2)

theorem sortByName_sorted :
    ∀ l, (sortByName l).Pairwise (fun a b => nameLt b.1.1 a.1.1 = false)
  | [] => by simp [sortByName]
  | x :: xs => by
    show (insertByName x (sortByName xs)).Pairwise
      (fun a b => nameLt b.1.1 a.1.1 = false)
    exact insertByName_sorted x (sortByName xs) (sortByName_sorted xs)

theorem insertByName_filter (x : (String × String) × Nat) (nm : String) :
    ∀ l : List ((String × String) × Nat),
      (insertByName x l).filter (fun p => p.1.1 = nm) =
        (x :: l).filter (fun p => p.1.1 = nm)
  | [] => rfl
  | y :: ys => by
    unfold insertByName
    split
    · rename_i hlt
      by_cases hy : y.1.1 = nm
      · have hx : ¬(x.1.1 = nm) := by
          intro hx
          rw [hy, hx, nameLt_irrefl nm] at hlt
          exact absurd hlt (by simp)
        simp [List.filter_cons, hy, hx, insertByName_filter x nm ys]
      · by_cases hx : x.1.1 = nm
        · simp [List.filter_cons, hy, hx, insertByName_filter x nm ys]
        · simp [List.filter_cons, hy, hx, insertByName_filter x nm ys]
    · rfl

theorem sortByName_filter (nm : String) :
    ∀ l, (sortByName l).filter (fun p => p.1.1 = nm) =
      l.filter (fun p => p.1.1 = nm)
  | [] => rfl
  | x :: xs => by
    show (insertByName x (sortByName xs)).filter (fun p => p.1.1 = nm) =
      (x :: xs).filter (fun p => p.1.1 = nm)
    rw [insertByName_filter x nm (sortByName xs), List.filter_cons,
      List.filter_cons, sortByName_filter nm xs]

theorem dedupFirst_nodup {α : Type} [DecidableEq α] :
    ∀ l : List α, (dedupFirst l).Nodup
  | [] => List.nodup_nil
  | x :: xs => by
    refine List.nodup_cons.mpr ⟨fun hmem => ?_, (dedupFirst_nodup xs).filter _⟩
    have h2 := List.of_mem_filter hmem
    simp only [decide_eq_true_eq] at h2
    exact h2 rfl

theorem mem_dedupFirst {α : Type} [DecidableEq α] :
    ∀ (l : List α) (a : α), a ∈ dedupFirst l ↔ a ∈ l
  | [], _ => Iff.rfl
  | x :: xs, a => by
    by_cases hax : a = x
    · subst hax
      simp [dedupFirst]
    · simp [dedupFirst, List.mem_filter, hax, mem_dedupFirst xs a]

theorem groupRows_keys (rows : List IngredientInRecipe) :
    (groupRows rows).map Prod.fst = dedupFirst (rows.map rowKey) := by
  unfold groupRows
  rw [List.map_map]
  have hcomp : (Prod.fst ∘ fun k : String × String => (k, sumAmounts rows k)) =
      id := rfl
  rw [hcomp, List.map_id]

theorem groupRows_mem_val (rows : List IngredientInRecipe)
    (k : String × String) (v : Nat) (h : (k, v) ∈ groupRows rows) :
    v = sumAmounts rows k := by
  unfold groupRows at h
  rcases List.mem_map.mp h with ⟨k2, _, heq⟩
  injection heq with h1 h2
  subst h1
  exact h2.symm

/-- Full characterisation of the annotated queryset, for any row list. -/
theorem cartIngredientsQuery_spec (rows : List IngredientInRecipe) :
    generate_shopping_list (cartIngredientsQuery rows) =
      String.intercalate "\n" ((cartIngredientsQuery rows).map renderLine) ∧
    ((cartIngredientsQuery rows).map Prod.fst).Nodup ∧
    (∀ k : String × String,
      k ∈ (cartIngredientsQuery rows).map Prod.fst ↔
        ∃ r ∈ rows, rowKey r = k) ∧
    (∀ (k : String × String) (v : Nat),
      (k, v) ∈ cartIngredientsQuery rows → v = sumAmounts rows k) ∧
    (cartIngredientsQuery rows).Pairwise
      (fun a b => nameLt a.1.1 b.1.1 = true ∨ a.1.1 = b.1.1) ∧
    (∀ nm : String,
      (cartIngredientsQuery rows).filter (fun p => p.1.1 = nm) =
        (groupRows rows).filter (fun p => p.1.1 = nm)) ∧
    (groupRows rows).map Prod.fst = dedupFirst (rows.map rowKey) := by
  have hperm : (cartIngredientsQuery rows).Perm (groupRows rows) :=
    sortByName_perm (groupRows rows)
  refine ⟨rfl, ?_, ?_, ?_, ?_,
    fun nm => sortByName_filter nm (groupRows rows), groupRows_keys rows⟩
  · exact ((hperm.map Prod.fst).nodup_iff).mpr
      (groupRows_keys rows ▸ dedupFirst_nodup (rows.map rowKey))
  · intro k
    rw [(hperm.map Prod.fst).mem_iff, groupRows_keys rows,
      mem_dedupFirst (rows.map rowKey) k, List.mem_map]
  · intro k v hkv
    exact groupRows_mem_val rows k v (hperm.mem_iff.mp hkv)
  · exact (sortByName_sorted (groupRows rows)).imp
      (fun h => nameLt_or_eq_of_not h)

/-- C3 (amended): for every non-empty cart, the aggregator output is the
newline-join of one line `{name} ({unit}) — {total}` per distinct
(name, unit) key among the cart's ingredient rows, each total being the
sum of the `amount` values of that group, the lines sorted by ingredient
name ascending; lines of equal name keep the group order of the query
(first-seen), since `order_by` uses the name only and no by-unit
tie-break is implemented. -/
theorem shopping_list_aggregation (r0 : IngredientInRecipe)
    (rest : List IngredientInRecipe) :
    generate_shopping_list (cartIngredientsQuery (r0 :: rest)) =
      String.intercalate "\n"
        ((cartIngredientsQuery (r0 :: rest)).map renderLine) ∧
    ((cartIngredientsQuery (r0 :: rest)).map Prod.fst).Nodup ∧
    (∀ k : String × String,
      k ∈ (cartIngredientsQuery (r0 :: rest)).map Prod.fst ↔
        ∃ r ∈ r0 :: rest, rowKey r = k) ∧
    (∀ (k : String × String) (v : Nat),
      (k, v) ∈ cartIngredientsQuery (r0 :: rest) →
        v = sumAmounts (r0 :: rest) k) ∧
    (cartIngredientsQuery (r0 :: rest)).Pairwise
      (fun a b => nameLt a.1.1 b.1.1 = true ∨ a.1.1 = b.1.1) ∧
    (∀ nm : String,
      (cartIngredientsQuery (r0 :: rest)).filter (fun p => p.1.1 = nm) =
        (groupRows (r0 :: rest)).filter (fun p => p.1.1 = nm)) ∧
    (groupRows (r0 :: rest)).map Prod.fst =
      dedupFirst ((r0 :: rest).map rowKey) :=
  cartIngredientsQuery_spec (r0 :: rest)

/-- C3 counterexample: with two groups sharing the ingredient name, the
query (ORDER BY name only, first-seen order among equal names) does not
produce the by-unit tie-break order the claim demands. -/
theorem shopping_list_tie_counterexample :
    generate_shopping_list (cartIngredientsQuery
      [⟨1, "flour", "kg", 1⟩, ⟨1, "flour", "g", 2⟩]) =
      "flour (kg) — 1\nflour (g) — 2" ∧
    generate_shopping_list (cartIngredientsQuery
      [⟨1, "flour", "kg", 1⟩, ⟨1, "flour", "g", 2⟩]) ≠
      "flour (g) — 2\nflour (kg) — 1" := by
  constructor
  · rfl
  · decide

/-- C4: on the cart holding recipe 1 (flour 200 g, egg 2 pc) and recipe
2 (flour 100 g), the download is exactly the two lines with flour summed
to 300 and `egg` sorted before `flour`. -/
theorem shopping_list_example :
    download_shopping_cart "user" [1, 2]
      [⟨1, "flour", "g", 200⟩, ⟨1, "egg", "pc", 2⟩, ⟨2, "flour", "g", 100⟩] =
      DownloadResult.file "egg (pc) — 2\nflour (g) — 300"
        "user_shopping_list.txt" := by
  rfl

/-- C5: requesting the shopping list with an empty cart raises the
`ValidationError` (HTTP 400) with its message — no file, not even an
empty one, is produced. -/
theorem download_empty_cart (username : String)
    (table : List IngredientInRecipe) :
    download_shopping_cart username [] table =
      DownloadResult.emptyCartError "Ваш список покупок пуст." := by
  rfl

/-! ## Membership toggle lemmas -/

theorem setTable_table (st : MembState) (k : MembKind)
    (t : List (Nat × Nat)) : (st.setTable k t).table k = t := by
  cases k <;> rfl

theorem setTable_recipes (st : MembState) (k : MembKind)
    (t : List (Nat × Nat)) : (st.setTable k t).recipes = st.recipes := by
  cases k <;> rfl

/-- C6: in both membership namespaces, adding an absent (user, recipe)
pair creates it (201), adding a present pair is rejected with the
duplicate `ValidationError` (400) and leaves the state unchanged,
removing a present pair deletes it (204), removing an absent pair
answers the 400 error body, and adding twice in sequence makes the first
call succeed and the second signal the conflict. -/
theorem membership_toggle (k : MembKind) (st : MembState) (user recipe : Nat)
    (hrec : recipe ∈ st.recipes) :
    ((user, recipe) ∉ st.table k →
      add_to_list k st user recipe =
        (AddResult.created,
          st.setTable k (st.table k ++ [(user, recipe)]))) ∧
    ((user, recipe) ∈ st.table k →
      add_to_list k st user recipe = (AddResult.conflict, st)) ∧
    ((user, recipe) ∈ st.table k →
      (delete_from_list k st user recipe).1 = RemoveResult.removed) ∧
    ((user, recipe) ∉ st.table k →
      delete_from_list k st user recipe = (RemoveResult.notFound, st)) ∧
    ((user, recipe) ∉ st.table k →
      (add_to_list k st user recipe).1 = AddResult.created ∧
      (add_to_list k (add_to_list k st user recipe).2 user recipe).1 =
        AddResult.conflict) := by
  refine ⟨?_, ?_, ?_, ?_, ?_⟩
  · intro hnot
    simp [add_to_list, hrec, hnot]
  · intro hmem
    simp [add_to_list, hrec, hmem]
  · intro hmem
    simp [delete_from_list, hrec, hmem]
  · intro hnot
    simp [delete_from_list, hrec, hnot]
  · intro hnot
    have h1 : add_to_list k st user recipe =
        (AddResult.created,
          st.setTable k (st.table k ++ [(user, recipe)])) := by
      simp [add_to_list, hrec, hnot]
    refine ⟨by rw [h1], ?_⟩
    rw [h1]
    have hrec2 : recipe ∈
        (st.setTable k (st.table k ++ [(user, recipe)])).recipes := by
      rw [setTable_recipes]
      exact hrec
    have hmem2 : (user, recipe) ∈
        (st.setTable k (st.table k ++ [(user, recipe)])).table k := by
      rw [setTable_table]
      simp
    simp [add_to_list, hrec2, hmem2]

/-- Witness for C6 in the shopping-cart namespace on the one-recipe
state. -/
theorem membership_toggle_witness :
    1 ∈ (⟨[1], [], []⟩ : MembState).recipes ∧
    (((7, 1) ∉ (⟨[1], [], []⟩ : MembState).table MembKind.shoppingCart →
      add_to_list MembKind.shoppingCart ⟨[1], [], []⟩ 7 1 =
        (AddResult.created,
          (⟨[1], [], []⟩ : MembState).setTable MembKind.shoppingCart
            ((⟨[1], [], []⟩ : MembState).table MembKind.shoppingCart ++
              [(7, 1)]))) ∧
    ((7, 1) ∈ (⟨[1], [], []⟩ : MembState).table MembKind.shoppingCart →
      add_to_list MembKind.shoppingCart ⟨[1], [], []⟩ 7 1 =
        (AddResult.conflict, ⟨[1], [], []⟩)) ∧
    ((7, 1) ∈ (⟨[1], [], []⟩ : MembState).table MembKind.shoppingCart →
      (delete_from_list MembKind.shoppingCart ⟨[1], [], []⟩ 7 1).1 =
        RemoveResult.removed) ∧
    ((7, 1) ∉ (⟨[1], [], []⟩ : MembState).table MembKind.shoppingCart →
      delete_from_list MembKind.shoppingCart ⟨[1], [], []⟩ 7 1 =
        (RemoveResult.notFound, ⟨[1], [], []⟩)) ∧
    ((7, 1) ∉ (⟨[1], [], []⟩ : MembState).table MembKind.shoppingCart →
      (add_to_list MembKind.shoppingCart ⟨[1], [], []⟩ 7 1).1 =
        AddResult.created ∧
      (add_to_list MembKind.shoppingCart
        (add_to_list MembKind.shoppingCart ⟨[1], [], []⟩ 7 1).2 7 1).1 =
        AddResult.conflict)) :=
  ⟨by decide, membership_toggle MembKind.shoppingCart ⟨[1], [], []⟩ 7 1
    (by decide)⟩

/-! ## Short-link caching lemmas -/

theorem b64encodeBody_ne_nil :
    ∀ (c : Nat) (rest : List Nat), b64encodeBody (c :: rest) ≠ []
  | _, [] => by simp [b64encodeBody]
  | _, [_] => by simp [b64encodeBody]
  | _, _ :: _ :: _ => by simp [b64encodeBody]

theorem get_short_link_ne_nil (n : Nat) : get_short_link n ≠ [] := by
  unfold get_short_link urlsafe_b64encode
  rcases hs : str_of_nat n with _ | ⟨c, rest⟩
  · exact absurd hs (str_of_nat_ne_nil n)
  · simp [b64encodeBody_ne_nil c rest]

theorem applyRecipeOp_id (op : RecipeOp) (r : RecipeRow) :
    (applyRecipeOp op r).id = r.id := by
  cases op with
  | save =>
    show (recipeSave r).id = r.id
    unfold recipeSave
    split <;> rfl
  | getLink =>
    show ((recipeGetLink r).2).id = r.id
    unfold recipeGetLink
    split <;> rfl

theorem applyRecipeOp_link (op : RecipeOp) (r : RecipeRow)
    (h : r.short_link = none ∨ r.short_link = some (get_short_link r.id)) :
    (applyRecipeOp op r).short_link = none ∨
      (applyRecipeOp op r).short_link = some (get_short_link r.id) := by
  cases op with
  | save =>
    show (recipeSave r).short_link = none ∨
      (recipeSave r).short_link = some (get_short_link r.id)
    unfold recipeSave
    split
    · right
      rfl
    · exact h
  | getLink =>
    show ((recipeGetLink r).2).short_link = none ∨
      ((recipeGetLink r).2).short_link = some (get_short_link r.id)
    unfold recipeGetLink
    split
    · right
      rfl
    · exact h

theorem run_invariant :
    ∀ (ops : List RecipeOp) (r : RecipeRow),
      r.short_link = none ∨ r.short_link = some (get_short_link r.id) →
      (runRecipeOps ops r).id = r.id ∧
      ((runRecipeOps ops r).short_link = none ∨
       (runRecipeOps ops r).short_link = some (get_short_link r.id))
  | [], _, h => ⟨rfl, h⟩
  | op :: ops, r, h => by
    have h1 := applyRecipeOp_id op r
    have h2 := applyRecipeOp_link op r h
    rw [← h1] at h2
    have h3 := run_invariant ops (applyRecipeOp op r) h2
    have hrw : runRecipeOps (op :: ops) r =
        runRecipeOps ops (applyRecipeOp op r) := rfl
    rw [hrw]
    refine ⟨h3.1.trans h1, ?_⟩
    rcases h3.2 with h4 | h4
    · exact Or.inl h4
    · right
      rw [h1] at h4
      exact h4

theorem applyRecipeOp_stable (op : RecipeOp) (r : RecipeRow) (t : List Nat)
    (ht : t ≠ []) (h : r.short_link = some t) : applyRecipeOp op r = r := by
  have hf : linkFalsy r.short_link = false := by
    rw [h]
    cases t with
    | nil => exact absurd rfl ht
    | cons a as => rfl
  cases op with
  | save =>
    show recipeSave r = r
    unfold recipeSave
    rw [hf]
    simp
  | getLink =>
    show (recipeGetLink r).2 = r
    unfold recipeGetLink
    rw [hf]
    simp

theorem runRecipeOps_stable :
    ∀ (ops : List RecipeOp) (r : RecipeRow) (t : List Nat),
      t ≠ [] → r.short_link = some t → runRecipeOps ops r = r
  | [], _, _, _, _ => rfl
  | op :: ops, r, t, ht, h => by
    have hstep := applyRecipeOp_stable op r t ht h
    have hrw : runRecipeOps (op :: ops) r =
        runRecipeOps ops (applyRecipeOp op r) := rfl
    rw [hrw, hstep, runRecipeOps_stable ops r t ht h]

/-- C7: starting from a freshly created recipe row (null token), any
sequence of save / get-link operations that has produced a persisted
token has produced exactly the encoding of the recipe id; every further
operation sequence leaves the token unchanged, and a further get-link
request returns the persisted token without modifying the row. -/
theorem short_link_write_once (id : Nat) (ops : List RecipeOp)
    (t : List Nat)
    (h : (runRecipeOps ops (newRecipe id)).short_link = some t) :
    t = get_short_link id ∧
    (∀ more : List RecipeOp,
      (runRecipeOps more
        (runRecipeOps ops (newRecipe id))).short_link = some t) ∧
    (recipeGetLink (runRecipeOps ops (newRecipe id))).1 = t ∧
    (recipeGetLink (runRecipeOps ops (newRecipe id))).2 =
      runRecipeOps ops (newRecipe id) := by
  have hinv := run_invariant ops (newRecipe id) (Or.inl rfl)
  have hid : (runRecipeOps ops (newRecipe id)).id = id := hinv.1
  rcases hinv.2 with h0 | h0
  · rw [h] at h0
    exact absurd h0 (by simp)
  · rw [h] at h0
    injection h0 with h0
    have h0 : t = get_short_link id := h0
    have ht : t ≠ [] := by
      rw [h0]
      exact get_short_link_ne_nil id
    have hf : linkFalsy (some t) = false := by
      cases t with
      | nil => exact absurd rfl ht
      | cons a as => rfl
    refine ⟨h0, ?_, ?_, ?_⟩
    · intro more
      rw [runRecipeOps_stable more _ t ht h, h]
    · unfold recipeGetLink
      rw [h, hf]
      simp
    · unfold recipeGetLink
      rw [h, hf]
      simp

/-- Witness for C7: recipe 7 after one save holds token `Nw==`. -/
theorem short_link_write_once_witness :
    (runRecipeOps [RecipeOp.save] (newRecipe 7)).short_link =
      some [78, 119, 61, 61] ∧
    ([78, 119, 61, 61] = get_short_link 7 ∧
     (∀ more : List RecipeOp,
       (runRecipeOps more
         (runRecipeOps [RecipeOp.save] (newRecipe 7))).short_link =
           some [78, 119, 61, 61]) ∧
     (recipeGetLink (runRecipeOps [RecipeOp.save] (newRecipe 7))).1 =
       [78, 119, 61, 61] ∧
     (recipeGetLink (runRecipeOps [RecipeOp.save] (newRecipe 7))).2 =
       runRecipeOps [RecipeOp.save] (newRecipe 7)) :=
  ⟨by decide,
    short_link_write_once 7 [RecipeOp.save] [78, 119, 61, 61] (by decide)⟩

/-! ## Recipe write validation lemmas -/

theorem wrValidate_dup_ingredients (p : WritePayload)
    (hdup : (ingredientIds p).length ≠ (ingredientIds p).dedup.length) :
    ∃ m, wrValidate p = some m := by
  unfold wrValidate
  split
  · exact ⟨_, rfl⟩
  · split
    · exact ⟨_, rfl⟩
    · split
      · exact ⟨_, rfl⟩
      · split
        · exact ⟨_, rfl⟩
        · rename_i h4
          exact absurd (Or.inr hdup) h4

/-- C8: a recipe write payload repeating an ingredient id is rejected by
`WriteRecipeSerializer.validate` with `ValidationError`, and neither the
create pipeline nor the update pipeline touches the persisted recipe,
tag or ingredient-line state. -/
theorem duplicate_ingredients_rejected (st : RecipeStore) (p : WritePayload)
    (newId recipeId : Nat)
    (hdup : (ingredientIds p).length ≠ (ingredientIds p).dedup.length) :
    (∃ m, createRecipe st p newId = (some m, st)) ∧
    (∃ m, updateRecipe st recipeId p = (some m, st)) := by
  obtain ⟨m, hm⟩ := wrValidate_dup_ingredients p hdup
  constructor
  · refine ⟨m, ?_⟩
    unfold createRecipe
    rw [hm]
  · refine ⟨m, ?_⟩
    unfold updateRecipe
    rw [hm]

/-- Witness for C8 on a payload listing ingredient 2 twice. -/
theorem duplicate_ingredients_rejected_witness :
    (ingredientIds ⟨[1], [(2, 5), (2, 7)]⟩).length ≠
      (ingredientIds ⟨[1], [(2, 5), (2, 7)]⟩).dedup.length ∧
    ((∃ m, createRecipe ⟨[], [], []⟩ ⟨[1], [(2, 5), (2, 7)]⟩ 9 =
        (some m, ⟨[], [], []⟩)) ∧
     (∃ m, updateRecipe ⟨[], [], []⟩ 3 ⟨[1], [(2, 5), (2, 7)]⟩ =
        (some m, ⟨[], [], []⟩))) :=
  ⟨by decide, duplicate_ingredients_rejected ⟨[], [], []⟩
    ⟨[1], [(2, 5), (2, 7)]⟩ 9 3 (by decide)⟩

/-! ## Subscription lemmas -/

/-- C9: a self-subscription attempt is rejected with the serializer
`ValidationError` in every data state, leaving the table unchanged; by
induction over the API operations no reachable subscription table holds
a row whose follower equals its following. -/
theorem no_self_subscription (s : List (Nat × Nat))
    (hs : SubsReachable s) :
    (∀ (s2 : List (Nat × Nat)) (u : Nat),
      subscribeUser s2 u u =
        (some "Подписаться на самого себя невозможно.", s2)) ∧
    ∀ p ∈ s, p.1 ≠ p.2 := by
  constructor
  · intro s2 u
    unfold subscribeUser subValidate
    simp
  · induction hs with
    | init => simp
    | subscribeStep s2 f2 g2 hs2 ih =>
      intro p hp
      unfold subscribeUser at hp
      cases hv : subValidate s2 f2 g2 with
      | some m =>
        rw [hv] at hp
        exact ih p hp
      | none =>
        rw [hv] at hp
        rcases List.mem_append.mp hp with hp2 | hp2
        · exact ih p hp2
        · have hpe : p = (f2, g2) := by simpa using hp2
          subst hpe
          intro heq
          unfold subValidate at hv
          rw [if_pos heq] at hv
          exact Option.noConfusion hv
    | unsubscribeStep s2 f2 g2 hs2 ih =>
      intro p hp
      exact ih p (List.mem_of_mem_filter hp)
    | cascadeStep s2 u hs2 ih =>
      intro p hp
      exact ih p (List.mem_of_mem_filter hp)

/-- Witness for C9 at the empty (initial) subscription table. -/
theorem no_self_subscription_witness :
    SubsReachable [] ∧
    ((∀ (s2 : List (Nat × Nat)) (u : Nat),
      subscribeUser s2 u u =
        (some "Подписаться на самого себя невозможно.", s2)) ∧
    ∀ p ∈ ([] : List (Nat × Nat)), p.1 ≠ p.2) :=
  ⟨SubsReachable.init, no_self_subscription [] SubsReachable.init⟩

end FoodHelper
